import Mathlib

/-!
Shallow embedding of the interactive raster-canvas editor of the
Nano-Banana-Hackathon repository.

The repository contains two variants of the `DrawingCanvas` component:
* `src/components/DrawingCanvas.tsx` (here suffixed `_v1`): single placed
  object, history snapshot taken after each completed stroke, mask composite
  `fill black; drawImage; source-in white`.
* `src/unnamed/part_000` (here suffixed `_v2`): list of placed objects,
  history snapshot taken before each stroke, mask composite
  `drawImage; source-in white; destination-over black`.

Numbers are modelled as exact rationals (ℚ); canvas pixels as premultiplied
RGBA values, which is the representation the 2D canvas compositing operators
are defined on (Porter-Duff, no divisions needed).
-/

namespace NanoBanana

/-- A premultiplied RGBA pixel with exact rational components. -/
structure RGBA where
  r : ℚ
  g : ℚ
  b : ℚ
  a : ℚ
deriving DecidableEq

/-- The fully transparent pixel (initial content of a fresh canvas). -/
def transparent : RGBA := ⟨0, 0, 0, 0⟩

/-- `fillStyle = 'black'` at full alpha, premultiplied. -/
def opaqueBlack : RGBA := ⟨0, 0, 0, 1⟩

/-- `fillStyle = 'white'` at full alpha, premultiplied. -/
def opaqueWhite : RGBA := ⟨1, 1, 1, 1⟩

/-- Porter-Duff `source-over` on premultiplied pixels
(the canvas default `globalCompositeOperation`). -/
def compSourceOver (s d : RGBA) : RGBA :=
  ⟨s.r + d.r * (1 - s.a), s.g + d.g * (1 - s.a), s.b + d.b * (1 - s.a),
   s.a + d.a * (1 - s.a)⟩

/-- Porter-Duff `source-in` on premultiplied pixels. -/
def compSourceIn (s d : RGBA) : RGBA :=
  ⟨s.r * d.a, s.g * d.a, s.b * d.a, s.a * d.a⟩

/-- Porter-Duff `destination-over` on premultiplied pixels. -/
def compDestinationOver (s d : RGBA) : RGBA :=
  ⟨d.r + s.r * (1 - d.a), d.g + s.g * (1 - d.a), d.b + s.b * (1 - d.a),
   d.a + s.a * (1 - d.a)⟩

/-- A raster surface, as its flat pixel list (pixel geometry is irrelevant
to the claims: every operation involved is per-pixel). -/
abbrev Surface := List RGBA

/-- Per-pixel effect of `getMaskDataUrl` in `src/components/DrawingCanvas.tsx`:
the mask canvas starts transparent, is filled opaque black (`source-over`),
the drawing surface pixel is composited over it (`source-over`), and finally
white is filled with `source-in`. -/
def maskPixel_v1 (p : RGBA) : RGBA :=
  let afterBlackFill := compSourceOver opaqueBlack transparent
  let afterDrawImage := compSourceOver p afterBlackFill
  compSourceIn opaqueWhite afterDrawImage

/-- Per-pixel effect of `getMaskDataUrl` in `src/unnamed/part_000`:
the mask canvas starts transparent, the drawing surface pixel is composited
over it (`source-over`), white is filled with `source-in`, and black is
filled with `destination-over`. -/
def maskPixel_v2 (p : RGBA) : RGBA :=
  let afterDrawImage := compSourceOver p transparent
  let afterWhiteFill := compSourceIn opaqueWhite afterDrawImage
  compDestinationOver opaqueBlack afterWhiteFill

/-- `getMaskDataUrl` of `src/components/DrawingCanvas.tsx`: returns `none`
when the history is empty, otherwise the per-pixel mask composite of the
drawing surface. -/
def getMaskDataUrl_v1 (history : List Surface) (surface : Surface) :
    Option Surface :=
  if history.isEmpty then none else some (surface.map maskPixel_v1)

/-- `getMaskDataUrl` of `src/unnamed/part_000`: returns `none` when the
history is empty, otherwise the per-pixel mask composite of the drawing
surface. -/
def getMaskDataUrl_v2 (history : List Surface) (surface : Surface) :
    Option Surface :=
  if history.isEmpty then none else some (surface.map maskPixel_v2)

/-- The v1 mask composite yields opaque white at every pixel, whatever the
surface pixel was: the initial black fill makes the destination fully
opaque, so the final `source-in` white fill covers the entire canvas. -/
theorem maskPixel_v1_const (p : RGBA) : maskPixel_v1 p = opaqueWhite := by
  simp only [maskPixel_v1, compSourceOver, compSourceIn, opaqueBlack,
    opaqueWhite, transparent, RGBA.mk.injEq]
  refine ⟨by ring, by ring, by ring, by ring⟩

/-- The v2 mask composite sends a surface pixel of alpha `a` to the opaque
gray of intensity `a`; in particular fully covered pixels map to opaque
white and untouched pixels to opaque black. -/
theorem maskPixel_v2_eq (p : RGBA) : maskPixel_v2 p = ⟨p.a, p.a, p.a, 1⟩ := by
  simp only [maskPixel_v2, compSourceOver, compSourceIn, compDestinationOver,
    opaqueBlack, opaqueWhite, transparent, RGBA.mk.injEq]
  refine ⟨by ring, by ring, by ring, by ring⟩

/-! ## Drawing surface, history stack, undo/clear -/

/-- A stroke, abstracted to its raster effect: each pixel (by flat index)
is rewritten as a function of its old value. Brush painting, erasing
(`destination-out`) and shape stroking are all of this form, and every such
operation preserves the pixel count of the surface. -/
abbrev Stroke := ℕ → RGBA → RGBA

/-- Apply a stroke to a surface, feeding each pixel its flat index
(starting at `i`). -/
def applyStroke (f : Stroke) : ℕ → Surface → Surface
  | _, [] => []
  | i, p :: ps => f i p :: applyStroke f (i + 1) ps

/-- `clearRect(0, 0, width, height)`: every pixel becomes transparent. -/
def clearSurface (s : Surface) : Surface := s.map fun _ => transparent

/-- The component state the history claims are about: the off-screen
drawing surface plus the snapshot history. -/
structure DrawState where
  surface : Surface
  history : List Surface
deriving DecidableEq

/-- State right after a base image of `n` pixels loads: fresh transparent
drawing surface, empty history. -/
def freshState (n : ℕ) : DrawState := ⟨List.replicate n transparent, []⟩

/-- Net effect of one completed draw gesture in `src/unnamed/part_000`:
`saveToHistory` appends the current surface (BRUSH/ERASER save in
`startInteraction` before any segment is stroked; LINE/RECTANGLE/CIRCLE
save in `finishInteraction` just before the shape is stroked), and the
stroke's pixels land on the surface. In every mode the appended snapshot
is the pre-stroke surface. -/
def completeStroke_v2 (f : Stroke) (s : DrawState) : DrawState :=
  ⟨applyStroke f 0 s.surface, s.history ++ [s.surface]⟩

/-- Net effect of one completed draw gesture in
`src/components/DrawingCanvas.tsx`: the stroke's pixels land on the surface
(BRUSH/ERASER during pointer-move, shapes in `finishInteraction`), and then
`saveToHistory` appends the resulting surface — the snapshot is the
post-stroke surface. -/
def completeStroke_v1 (f : Stroke) (s : DrawState) : DrawState :=
  ⟨applyStroke f 0 s.surface, s.history ++ [applyStroke f 0 s.surface]⟩

/-- `handleUndo` of `src/unnamed/part_000`: no-op on empty history;
otherwise drop the last snapshot, clear the surface and repaint the new
last snapshot if one remains. -/
def handleUndo_v2 (s : DrawState) : DrawState :=
  if s.history.isEmpty then s
  else
    let newHistory := s.history.dropLast
    match newHistory.getLast? with
    | some snap => ⟨snap, newHistory⟩
    | none => ⟨clearSurface s.surface, newHistory⟩

/-- `handleUndo` of `src/components/DrawingCanvas.tsx`: same as the
part_000 variant but without the empty-history guard (dropping the last of
an empty history is still the empty history, and the cleared surface is
repainted with nothing). -/
def handleUndo_v1 (s : DrawState) : DrawState :=
  let newHistory := s.history.dropLast
  match newHistory.getLast? with
  | some snap => ⟨snap, newHistory⟩
  | none => ⟨clearSurface s.surface, newHistory⟩

/-- `handleClear` (both variants): blank the surface, empty the history. -/
def handleClear (s : DrawState) : DrawState := ⟨clearSurface s.surface, []⟩

/-- A sequence of completed stroke gestures, part_000 variant. -/
def runStrokes_v2 (fs : List Stroke) (s : DrawState) : DrawState :=
  fs.foldl (fun st f => completeStroke_v2 f st) s

/-- `k` undo triggers in a row, part_000 variant. -/
def undoTimes : ℕ → DrawState → DrawState
  | 0, s => s
  | k + 1, s => undoTimes k (handleUndo_v2 s)

/-- Applying a stroke preserves the pixel count. -/
theorem length_applyStroke (f : Stroke) :
    ∀ (i : ℕ) (s : Surface), (applyStroke f i s).length = s.length := by
  intro i s
  induction s generalizing i with
  | nil => rfl
  | cons p ps ih => simp [applyStroke, ih]

/-- Clearing a surface of `n` pixels yields the blank surface of `n`
pixels. -/
theorem clearSurface_eq {s : Surface} {n : ℕ} (h : s.length = n) :
    clearSurface s = List.replicate n transparent := by
  subst h
  induction s with
  | nil => rfl
  | cons p ps ih => simp [clearSurface, List.replicate]

/-- Every surface reachable by strokes from an `n`-pixel surface, and every
snapshot recorded along the way, has `n` pixels. -/
def SizedState (n : ℕ) (s : DrawState) : Prop :=
  s.surface.length = n ∧ ∀ t ∈ s.history, t.length = n

theorem sizedState_fresh (n : ℕ) : SizedState n (freshState n) := by
  constructor
  · simp [freshState]
  · intro t ht; simp [freshState] at ht

theorem sizedState_completeStroke_v2 {n : ℕ} {s : DrawState} (f : Stroke)
    (h : SizedState n s) : SizedState n (completeStroke_v2 f s) := by
  obtain ⟨hs, hh⟩ := h
  refine ⟨by simp [completeStroke_v2, length_applyStroke, hs], ?_⟩
  intro t ht
  simp only [completeStroke_v2, List.mem_append, List.mem_singleton] at ht
  rcases ht with ht | rfl
  · exact hh t ht
  · exact hs

theorem sizedState_runStrokes_v2 {n : ℕ} (fs : List Stroke) {s : DrawState}
    (h : SizedState n s) : SizedState n (runStrokes_v2 fs s) := by
  induction fs generalizing s with
  | nil => exact h
  | cons f fs ih =>
      exact ih (sizedState_completeStroke_v2 f h)

/-- Each completed gesture appends exactly one history entry. -/
theorem history_length_runStrokes_v2 (fs : List Stroke) (s : DrawState) :
    (runStrokes_v2 fs s).history.length = s.history.length + fs.length := by
  induction fs generalizing s with
  | nil => simp [runStrokes_v2]
  | cons f fs ih =>
      have h1 : runStrokes_v2 (f :: fs) s = runStrokes_v2 fs (completeStroke_v2 f s) := rfl
      rw [h1, ih]
      simp only [completeStroke_v2, List.length_append, List.length_cons,
        List.length_nil]
      omega

/-- Draining a non-empty history with one undo per entry ends at the fresh
state: the final undo's `clearRect` blanks the surface and the history is
empty. -/
theorem undoTimes_drain (n : ℕ) :
    ∀ (hs : List Surface) (surf : Surface), surf.length = n →
      (∀ t ∈ hs, t.length = n) → hs ≠ [] →
      undoTimes hs.length ⟨surf, hs⟩ = freshState n := by
  intro hs
  induction hs using List.reverseRecOn with
  | nil => intro surf _ _ hne; exact absurd rfl hne
  | append_singleton ys y ih =>
      intro surf hsurf hmem _
      rcases eq_or_ne ys [] with rfl | hys
      · have hstep : handleUndo_v2 ⟨surf, [y]⟩ = ⟨clearSurface surf, []⟩ := by
          simp [handleUndo_v2]
        have hlen : (([] : List Surface) ++ [y]).length = 1 := rfl
        rw [hlen]
        show undoTimes 0 (handleUndo_v2 ⟨surf, [y]⟩) = freshState n
        rw [hstep]
        simp [undoTimes, clearSurface_eq hsurf, freshState]
      · have hsnap : ys.getLast? = some (ys.getLast hys) :=
          List.getLast?_eq_getLast_of_ne_nil hys
        have hstep : handleUndo_v2 ⟨surf, ys ++ [y]⟩ = ⟨ys.getLast hys, ys⟩ := by
          simp [handleUndo_v2, hsnap]
        have hlen : (ys ++ [y]).length = ys.length + 1 := by simp
        rw [hlen]
        show undoTimes ys.length (handleUndo_v2 ⟨surf, ys ++ [y]⟩) = freshState n
        rw [hstep]
        exact ih (ys.getLast hys)
          (hmem _ (List.mem_append_left _ (List.getLast_mem hys)))
          (fun t ht => hmem t (List.mem_append_left _ ht)) hys

/-- States of the `DrawingCanvas.tsx` variant reachable from a fresh image
by completed strokes, undo triggers and clear triggers. -/
inductive Reachable_v1 : DrawState → Prop
  | init (n : ℕ) : Reachable_v1 (freshState n)
  | stroke (f : Stroke) {s : DrawState} :
      Reachable_v1 s → Reachable_v1 (completeStroke_v1 f s)
  | undo {s : DrawState} : Reachable_v1 s → Reachable_v1 (handleUndo_v1 s)
  | clear {s : DrawState} : Reachable_v1 s → Reachable_v1 (handleClear s)

/-- A stroke that paints pixel `k` with color `c` and leaves the rest. -/
def strokePaint (k : ℕ) (c : RGBA) : Stroke := fun i p => if i = k then c else p

/-- First stroke of the C2 scenario: paint pixel 0 white on a fresh
two-pixel surface (part_000 variant, snapshot saved before the stroke). -/
def c2_afterStroke1 : DrawState :=
  completeStroke_v2 (strokePaint 0 opaqueWhite) (freshState 2)

/-- Second stroke of the C2 scenario: paint pixel 1 white. -/
def c2_afterStroke2 : DrawState :=
  completeStroke_v2 (strokePaint 1 opaqueWhite) c2_afterStroke1

/-- C2: in the part_000 variant the snapshot is indeed taken before each
stroke, but one undo after two completed strokes repaints the blank
pre-stroke-1 snapshot instead of the pre-stroke-2 state: `handleUndo` pops
the snapshot of the most recent stroke and restores the one below it, so a
single undo reverts two strokes. The claim's consequence — undo restores
the state immediately before the most recent completed stroke — fails. -/
theorem c2_undo_overshoots_failing_input :
    (handleUndo_v2 c2_afterStroke2).surface = List.replicate 2 transparent ∧
    c2_afterStroke1.surface = [opaqueWhite, transparent] ∧
    (handleUndo_v2 c2_afterStroke2).surface ≠ c2_afterStroke1.surface := by
  decide

/-- C3: `handleUndo` of the part_000 variant on an empty history is a
no-op: the surface and the (empty) history are returned unchanged. -/
theorem c3_undo_empty_history_noop (surf : Surface) :
    handleUndo_v2 ⟨surf, []⟩ = ⟨surf, []⟩ := rfl

/-- C4: over every state of the `DrawingCanvas.tsx` variant reachable by
completed strokes, undos and clears, a non-empty history's last entry
equals the current drawing surface. -/
theorem c4_history_last_eq_surface {s : DrawState} (hr : Reachable_v1 s)
    (snap : Surface) (hl : s.history.getLast? = some snap) :
    snap = s.surface := by
  induction hr with
  | init n => simp [freshState] at hl
  | stroke f hs ih =>
      simp only [completeStroke_v1] at hl ⊢
      rw [List.getLast?_concat] at hl
      exact (Option.some_inj.mp hl).symm
  | undo hs ih =>
      rename_i s'
      cases hgl : s'.history.dropLast.getLast? with
      | some t => simp_all [handleUndo_v1, hgl]
      | none => simp_all [handleUndo_v1, hgl]
  | clear hs ih => simp [handleClear] at hl

/-- Witness for C4 at a concrete reachable state: one white stroke on a
fresh one-pixel image. -/
theorem c4_history_last_eq_surface_witness :
    ([opaqueWhite] : Surface) =
      (completeStroke_v1 (strokePaint 0 opaqueWhite) (freshState 1)).surface :=
  c4_history_last_eq_surface
    (Reachable_v1.stroke (strokePaint 0 opaqueWhite) (Reachable_v1.init 1))
    [opaqueWhite] (by decide)

/-- C5: in the part_000 variant, any `N` completed stroke gestures from a
fresh image (the modes all reduce to "append one snapshot, mutate the
surface") leave a history of length `N`, and `N` undo triggers return the
editor to the fresh state: blank surface, empty history. -/
theorem c5_history_monotonicity (n : ℕ) (fs : List Stroke) :
    (runStrokes_v2 fs (freshState n)).history.length = fs.length ∧
    undoTimes fs.length (runStrokes_v2 fs (freshState n)) = freshState n := by
  have hlen : (runStrokes_v2 fs (freshState n)).history.length = fs.length := by
    simpa [freshState] using history_length_runStrokes_v2 fs (freshState n)
  refine ⟨hlen, ?_⟩
  rcases eq_or_ne fs [] with rfl | hfs
  · rfl
  · obtain ⟨hsurf, hhist⟩ := sizedState_runStrokes_v2 fs (sizedState_fresh n)
    have hne : (runStrokes_v2 fs (freshState n)).history ≠ [] := by
      intro h
      have h0 : fs.length = 0 := by rw [h] at hlen; simpa using hlen.symm
      exact hfs (List.length_eq_zero.mp h0)
    have hdrain := undoTimes_drain n (runStrokes_v2 fs (freshState n)).history
      (runStrokes_v2 fs (freshState n)).surface hsurf hhist hne
    rw [← hlen]
    exact hdrain

/-- C1: in the `DrawingCanvas.tsx` variant of `getMaskDataUrl`, a surface
with one fully covered stroke pixel (opaque red) and one untouched pixel
(alpha 0) yields a mask that is fully-opaque white at BOTH pixels: the
initial black fill makes the whole destination opaque, so the final
`source-in` white fill covers the entire canvas. The claim demands
fully-opaque black at the untouched pixel. -/
theorem c1_mask_v1_all_white_failing_input :
    getMaskDataUrl_v1 [List.replicate 2 transparent]
        [⟨1, 0, 0, 1⟩, transparent] =
      some [opaqueWhite, opaqueWhite] ∧
    opaqueWhite ≠ opaqueBlack := by
  constructor
  · simp [getMaskDataUrl_v1, maskPixel_v1_const]
  · simp [opaqueWhite, opaqueBlack, RGBA.mk.injEq]

/-- The part_000 variant of the composite produces, on the same input, the
binary mask the spec describes: white at the stroked pixel, black at the
untouched one. -/
theorem getMask_v2_binary_on_binary_input :
    getMaskDataUrl_v2 [List.replicate 2 transparent]
        [⟨1, 0, 0, 1⟩, transparent] =
      some [opaqueWhite, opaqueBlack] := by
  simp [getMaskDataUrl_v2, maskPixel_v2_eq, transparent, opaqueWhite,
    opaqueBlack]

/-! ## Viewport transform, objects, hit-testing -/

/-- `HANDLE_SIZE` constant (both variants). -/
def HANDLE_SIZE : ℚ := 10

/-- `MIN_ZOOM` constant. -/
def MIN_ZOOM : ℚ := 1 / 4

/-- `MAX_ZOOM` constant. -/
def MAX_ZOOM : ℚ := 4

/-- A 2D point with exact rational coordinates. -/
structure Point where
  x : ℚ
  y : ℚ
deriving DecidableEq

/-- The viewport transform `{scale, offsetX, offsetY}`. -/
structure Transform where
  scale : ℚ
  offsetX : ℚ
  offsetY : ℚ
deriving DecidableEq

/-- `getTransformedCoords`: canvas-relative mouse point to image space.
`imageScaleX/Y` are `canvas.width / naturalWidth` and
`canvas.height / naturalHeight`. -/
def toImageSpace (t : Transform) (imageScaleX imageScaleY : ℚ)
    (p : Point) : Point :=
  ⟨(p.x - t.offsetX) / t.scale / imageScaleX,
   (p.y - t.offsetY) / t.scale / imageScaleY⟩

/-- The rendering path of `redraw`: inside the
`translate(offsetX, offsetY); scale(scale, scale)` scope, image-space
coordinates are multiplied by the display scale factors, so an image point
lands on screen at `offset + scale * (q * imageScale)`. -/
def toScreenSpace (t : Transform) (imageScaleX imageScaleY : ℚ)
    (q : Point) : Point :=
  ⟨q.x * imageScaleX * t.scale + t.offsetX,
   q.y * imageScaleY * t.scale + t.offsetY⟩

/-- `handleWheel`: zoom-to-cursor wheel step. The new scale is the old
scale times `1 - deltaY * 0.001`, clamped to `[MIN_ZOOM, MAX_ZOOM]`; the
offset is recomputed from the world point under the cursor. -/
def handleWheel (prev : Transform) (mouse : Point) (deltaY : ℚ) : Transform :=
  let zoom := 1 - deltaY * (1 / 1000)
  let newScale := max MIN_ZOOM (min (prev.scale * zoom) MAX_ZOOM)
  let worldX := (mouse.x - prev.offsetX) / prev.scale
  let worldY := (mouse.y - prev.offsetY) / prev.scale
  ⟨newScale, mouse.x - worldX * newScale, mouse.y - worldY * newScale⟩

/-- `UploadedObject` of `src/unnamed/part_000` (identity key plus the
`types.ts` fields), coordinates in image space. -/
structure UploadedObject where
  id : String
  imageUrl : String
  x : ℚ
  y : ℚ
  width : ℚ
  height : ℚ
deriving DecidableEq

/-- Image-space extent of the bottom-right resize handle's hit square:
`HANDLE_SIZE / transform.scale / (canvas.width / naturalWidth)`
(part_000 `startInteraction`). -/
def handleHitSize (scale canvasWidth naturalWidth : ℚ) : ℚ :=
  HANDLE_SIZE / scale / (canvasWidth / naturalWidth)

/-- Pointer-in-resize-handle test of `startInteraction`: a square of
half-extent `hs` centered on the object's bottom-right corner, with strict
inequalities. -/
def inResizeHandle (hs : ℚ) (pos : Point) (o : UploadedObject) : Bool :=
  decide (o.x + o.width - hs < pos.x) && decide (pos.x < o.x + o.width + hs) &&
  decide (o.y + o.height - hs < pos.y) && decide (pos.y < o.y + o.height + hs)

/-- Pointer-in-bounding-box test of `startInteraction`, strict
inequalities. -/
def inBoundingBox (pos : Point) (o : UploadedObject) : Bool :=
  decide (o.x < pos.x) && decide (pos.x < o.x + o.width) &&
  decide (o.y < pos.y) && decide (pos.y < o.y + o.height)

/-- Outcome of an object hit: grab the bottom-right resize handle, or grab
the body for a move (recording the pointer's offset from the origin). -/
inductive HitAction where
  | resize (objectId : String)
  | move (objectId : String) (startX startY : ℚ)
deriving DecidableEq

/-- The scan order of the `for (let i = uploadedObjects.length - 1; ...)`
loop: per object the handle test runs before the body test; the first hit
breaks the loop. The input list here is already reversed. -/
def hitScan (hs : ℚ) (pos : Point) : List UploadedObject → Option HitAction
  | [] => none
  | o :: rest =>
      if inResizeHandle hs pos o then some (HitAction.resize o.id)
      else if inBoundingBox pos o then
        some (HitAction.move o.id (pos.x - o.x) (pos.y - o.y))
      else hitScan hs pos rest

/-- The hit-testing part of `startInteraction` (part_000): objects are
scanned in reverse insertion order. -/
def startInteractionHitTest (scale canvasWidth naturalWidth : ℚ)
    (objs : List UploadedObject) (pos : Point) : Option HitAction :=
  hitScan (handleHitSize scale canvasWidth naturalWidth) pos objs.reverse

/-- One pointer-move step of a resize interaction (`onInteraction`):
width follows the pointer, clamped below by `HANDLE_SIZE * 2`; height is
the new width times the object's current height/width ratio; `x`, `y` are
untouched. -/
def resizeUpdate (o : UploadedObject) (pos : Point) : UploadedObject :=
  let newWidth := max (pos.x - o.x) (HANDLE_SIZE * 2)
  { o with width := newWidth, height := newWidth * (o.height / o.width) }

/-- One pointer-move step of a move interaction (`onInteraction`): the
object's origin follows the pointer minus the grab offset recorded at
pointer-down. -/
def moveUpdate (o : UploadedObject) (pos : Point) (startX startY : ℚ) :
    UploadedObject :=
  { o with x := pos.x - startX, y := pos.y - startY }

/-- C6: hit-testing scans topmost-first (reverse insertion order) and for
each object tests the resize handle before the bounding box; the first
object satisfying either test wins, so whenever the pointer is over the
most-recently-added object the earlier objects are never consulted and the
hit resolves to the newest object — in particular a pointer-down inside
the overlap of two objects resolves to the most-recently-added one. -/
theorem c6_hit_test_topmost_first (scale canvasWidth naturalWidth : ℚ)
    (objs : List UploadedObject) (o : UploadedObject) (pos : Point)
    (h : inResizeHandle (handleHitSize scale canvasWidth naturalWidth) pos o = true ∨
      inBoundingBox pos o = true) :
    startInteractionHitTest scale canvasWidth naturalWidth (objs ++ [o]) pos =
      some (if inResizeHandle (handleHitSize scale canvasWidth naturalWidth) pos o
            then HitAction.resize o.id
            else HitAction.move o.id (pos.x - o.x) (pos.y - o.y)) := by
  unfold startInteractionHitTest
  rw [List.reverse_append]
  rcases h with h | h
  · simp [hitScan, h]
  · by_cases hh :
      inResizeHandle (handleHitSize scale canvasWidth naturalWidth) pos o = true
    · simp [hitScan, hh]
    · simp [hitScan, hh, h]

/-- Older object of the C6 witness scenario. -/
def c6_objA : UploadedObject := ⟨"a", "a.png", 0, 0, 100, 100⟩

/-- Newer object of the C6 witness scenario; its body overlaps `c6_objA`. -/
def c6_objB : UploadedObject := ⟨"b", "b.png", 50, 50, 100, 100⟩

/-- Witness for C6: at zoom 1 with matching canvas and natural widths, a
pointer-down at (60, 60) — inside the bodies of both objects — resolves to
the most-recently-added object `c6_objB`. -/
theorem c6_hit_test_topmost_first_witness :
    startInteractionHitTest 1 800 800 ([c6_objA] ++ [c6_objB]) ⟨60, 60⟩ =
      some (if inResizeHandle (handleHitSize 1 800 800) ⟨60, 60⟩ c6_objB
            then HitAction.resize c6_objB.id
            else HitAction.move c6_objB.id ((60 : ℚ) - c6_objB.x)
              ((60 : ℚ) - c6_objB.y)) :=
  c6_hit_test_topmost_first 1 800 800 [c6_objA] c6_objB ⟨60, 60⟩
    (Or.inr (by norm_num [inBoundingBox, c6_objB]))

/-- C7: a resize pointer-move keeps the object's top-left anchored, sets
the width to the pointer's image-space x minus the object's x clamped
below by the fixed minimum `HANDLE_SIZE * 2`, derives the height as the
new width times the current height/width ratio, and hence preserves the
height/width ratio exactly; height is never independently adjusted. -/
theorem c7_resize_aspect_lock (o : UploadedObject) (pos : Point) :
    (resizeUpdate o pos).x = o.x ∧ (resizeUpdate o pos).y = o.y ∧
    (resizeUpdate o pos).width = max (pos.x - o.x) (HANDLE_SIZE * 2) ∧
    (resizeUpdate o pos).height =
      (resizeUpdate o pos).width * (o.height / o.width) ∧
    (resizeUpdate o pos).height / (resizeUpdate o pos).width =
      o.height / o.width := by
  have hw : (resizeUpdate o pos).width ≠ 0 := by
    have h20 : (0 : ℚ) < HANDLE_SIZE * 2 := by norm_num [HANDLE_SIZE]
    have hpos : (0 : ℚ) < max (pos.x - o.x) (HANDLE_SIZE * 2) :=
      lt_of_lt_of_le h20 (le_max_right _ _)
    exact ne_of_gt hpos
  refine ⟨rfl, rfl, rfl, rfl, ?_⟩
  have h4 : (resizeUpdate o pos).height =
      (resizeUpdate o pos).width * (o.height / o.width) := rfl
  rw [h4, mul_div_cancel_left₀ _ hw]

/-- C8: for any viewport transform with scale in `[MIN_ZOOM, MAX_ZOOM]`
and nonzero display scale factors, mapping a screen point to image space
with `getTransformedCoords` and back through the rendering path returns
the original point — exactly, over the rationals. -/
theorem c8_roundtrip_transform (t : Transform) (imageScaleX imageScaleY : ℚ)
    (p : Point) (h1 : MIN_ZOOM ≤ t.scale) (_h2 : t.scale ≤ MAX_ZOOM)
    (hx : imageScaleX ≠ 0) (hy : imageScaleY ≠ 0) :
    toScreenSpace t imageScaleX imageScaleY
      (toImageSpace t imageScaleX imageScaleY p) = p := by
  have hs : t.scale ≠ 0 :=
    ne_of_gt (lt_of_lt_of_le (by norm_num [MIN_ZOOM]) h1)
  cases p with
  | mk px py =>
      simp only [toImageSpace, toScreenSpace, Point.mk.injEq]
      constructor <;> (field_simp; ring)

/-- Witness for C8 at scale 1, zero offset, unit display factors. -/
theorem c8_roundtrip_transform_witness :
    toScreenSpace ⟨1, 0, 0⟩ 1 1 (toImageSpace ⟨1, 0, 0⟩ 1 1 ⟨3, 5⟩) =
      ⟨3, 5⟩ :=
  c8_roundtrip_transform ⟨1, 0, 0⟩ 1 1 ⟨3, 5⟩ (by norm_num [MIN_ZOOM])
    (by norm_num [MAX_ZOOM]) one_ne_zero one_ne_zero

/-- Division cancellation used by the wheel-invariance proof. -/
theorem wheel_world_cancel (a b c : ℚ) (hc : c ≠ 0) :
    (a - (a - b * c)) / c = b := by
  have h : a - (a - b * c) = b * c := by ring
  rw [h, mul_div_cancel_right₀ _ hc]

/-- C9: one `handleWheel` step — any starting scale in
`[MIN_ZOOM, MAX_ZOOM]`, any cursor position, any wheel delta, clamping
included — leaves the image-space point under the cursor unchanged:
`getTransformedCoords` of the cursor agrees before and after the step. -/
theorem c9_zoom_keeps_cursor_point (prev : Transform) (mouse : Point)
    (deltaY imageScaleX imageScaleY : ℚ)
    (_h1 : MIN_ZOOM ≤ prev.scale) (_h2 : prev.scale ≤ MAX_ZOOM) :
    toImageSpace (handleWheel prev mouse deltaY) imageScaleX imageScaleY mouse =
      toImageSpace prev imageScaleX imageScaleY mouse := by
  have hns : (0 : ℚ) <
      max MIN_ZOOM (min (prev.scale * (1 - deltaY * (1 / 1000))) MAX_ZOOM) :=
    lt_of_lt_of_le (by norm_num [MIN_ZOOM]) (le_max_left _ _)
  cases mouse with
  | mk mx my =>
      simp only [handleWheel, toImageSpace, Point.mk.injEq]
      constructor <;> rw [wheel_world_cancel _ _ _ (ne_of_gt hns)]

/-- Witness for C9: a concrete clamping-free wheel step at scale 1. -/
theorem c9_zoom_keeps_cursor_point_witness :
    toImageSpace (handleWheel ⟨1, 0, 0⟩ ⟨3, 5⟩ 100) 1 1 ⟨3, 5⟩ =
      toImageSpace ⟨1, 0, 0⟩ 1 1 ⟨3, 5⟩ :=
  c9_zoom_keeps_cursor_point ⟨1, 0, 0⟩ ⟨3, 5⟩ 100 1 1
    (by norm_num [MIN_ZOOM]) (by norm_num [MAX_ZOOM])

/-- Any run of move steps leaves width, height, image source and identity
untouched. -/
theorem moveFold_frame (sx sy : ℚ) (ps : List Point) :
    ∀ o : UploadedObject,
      (ps.foldl (fun acc p => moveUpdate acc p sx sy) o).width = o.width ∧
      (ps.foldl (fun acc p => moveUpdate acc p sx sy) o).height = o.height ∧
      (ps.foldl (fun acc p => moveUpdate acc p sx sy) o).imageUrl = o.imageUrl ∧
      (ps.foldl (fun acc p => moveUpdate acc p sx sy) o).id = o.id := by
  induction ps with
  | nil => intro o; exact ⟨rfl, rfl, rfl, rfl⟩
  | cons p ps ih => intro o; exact ih (moveUpdate o p sx sy)

/-- Any run of resize steps leaves the top-left corner untouched. -/
theorem resizeFold_frame (ps : List Point) :
    ∀ o : UploadedObject,
      (ps.foldl (fun acc p => resizeUpdate acc p) o).x = o.x ∧
      (ps.foldl (fun acc p => resizeUpdate acc p) o).y = o.y := by
  induction ps with
  | nil => intro o; exact ⟨rfl, rfl⟩
  | cons p ps ih => intro o; exact ih (resizeUpdate o p)

/-- C10: frame conditions of `onInteraction`. Every sequence of move-step
updates leaves the object's width, height, image source and identity
exactly as captured at gesture start, and every sequence of resize-step
updates leaves `x` and `y` exactly as captured at gesture start. -/
theorem c10_interaction_frame_conditions :
    (∀ (o : UploadedObject) (sx sy : ℚ) (ps : List Point),
      (ps.foldl (fun acc p => moveUpdate acc p sx sy) o).width = o.width ∧
      (ps.foldl (fun acc p => moveUpdate acc p sx sy) o).height = o.height ∧
      (ps.foldl (fun acc p => moveUpdate acc p sx sy) o).imageUrl = o.imageUrl ∧
      (ps.foldl (fun acc p => moveUpdate acc p sx sy) o).id = o.id) ∧
    (∀ (o : UploadedObject) (ps : List Point),
      (ps.foldl (fun acc p => resizeUpdate acc p) o).x = o.x ∧
      (ps.foldl (fun acc p => resizeUpdate acc p) o).y = o.y) :=
  ⟨fun o sx sy ps => moveFold_frame sx sy ps o,
   fun o ps => resizeFold_frame ps o⟩

end NanoBanana
